import Mathlib

/-!
Shallow embedding of the ValidatedMethod runtime type-checking engine
(src/validated-method.js, the current revision: the `#validate`,
`#validateArrayTypes`, `#validateNumber`, `#validateInteger`,
`#validateReturn` and `#checkType` private methods together with the
constructor's dispatching closure).

Modelling conventions:
* JavaScript values are the inductive `JsValue`; machine doubles are
  idealised as exact rationals extended with the three special values
  NaN, Infinity and -Infinity (`JsNumber`).  `parseFloat` applied to a
  value that is already a number is modelled as the identity, encoding
  the exact double -> string -> double round trip of the host.
* Mutation of the per-call bag (`opts[key] = ...`, `values[index] = ...`)
  is modelled by explicit state passing: validation returns the final
  bag next to the outcome.
* Thrown TypeErrors are modelled by the structured error type `VErr`;
  the constructors carry the data interpolated into the host's message
  strings (expected/actual arity counts, the offending key, and so on).
* Regular expressions are modelled as pure string predicates, and user
  validator functions as pure functions that may either return a value
  or throw (an `Except String JsValue`).
-/

namespace VM

/-- Idealised JavaScript number: exact rational plus the IEEE specials. -/
inductive JsNumber where
  | finite (q : ℚ)
  | posInf
  | negInf
  | nan
  deriving DecidableEq, Repr

/-- JavaScript runtime values, as far as the engine inspects them.
Symbols, functions, promises and class instances are opaque: only their
`typeof` tag, truthiness, identity and (for instances) constructor chain
matter to the code.  An instance carries the list of class identities it
is an `instanceof`. -/
inductive JsValue where
  | undef
  | null
  | bool (b : Bool)
  | num (n : JsNumber)
  | str (s : String)
  | sym (id : Nat)
  | arr (elems : List JsValue)
  | obj (fields : List (String × JsValue))
  | fn (id : Nat)
  | promise (id : Nat)
  | inst (classes : List Nat)
  deriving Repr

/-- Result of the JavaScript `typeof` operator. -/
def typeofStr : JsValue → String
  | .undef => "undefined"
  | .null => "object"
  | .bool _ => "boolean"
  | .num _ => "number"
  | .str _ => "string"
  | .sym _ => "symbol"
  | .arr _ => "object"
  | .obj _ => "object"
  | .fn _ => "function"
  | .promise _ => "object"
  | .inst _ => "object"

/-- The `Boolean(value)` truthiness coercion. -/
def truthy : JsValue → Bool
  | .undef => false
  | .null => false
  | .bool b => b
  | .num (.finite q) => q ≠ 0
  | .num .nan => false
  | .num _ => true
  | .str s => s ≠ ""
  | _ => true

/-- Test for `Array.isArray(value)`. -/
def isArray : JsValue → Bool
  | .arr _ => true
  | _ => false

/-- Test for `value instanceof C` where `C` is the class with identity `c`. -/
def isInstance (c : Nat) : JsValue → Bool
  | .inst cs => c ∈ cs
  | _ => false

/-- Test for `value instanceof Promise`. -/
def isPromise : JsValue → Bool
  | .promise _ => true
  | _ => false

/-! Decimal parsing, the model of the host's `parseFloat`. -/

def isDigitCh (c : Char) : Bool := 48 ≤ c.toNat ∧ c.toNat ≤ 57

def isSpaceCh (c : Char) : Bool := c = ' ' ∨ c = '\t' ∨ c = '\n' ∨ c = '\r'

def intOfDigits (ds : List Char) : ℕ := ds.foldl (fun a c => a * 10 + (c.toNat - 48)) 0

def fracOfDigits (ds : List Char) : ℚ := (intOfDigits ds : ℚ) / (10 ^ ds.length)

/-- Parse an unsigned decimal mantissa (digits, optionally a point and more
digits), returning its value and the unconsumed rest; `none` when no digit
is found, which `parseFloat` reports as NaN. -/
def parseMantissa (cs : List Char) : Option (ℚ × List Char) :=
  let p := cs.span isDigitCh
  match p.2 with
  | '.' :: r2 =>
      let q := r2.span isDigitCh
      if p.1.isEmpty ∧ q.1.isEmpty then none
      else some ((intOfDigits p.1 : ℚ) + fracOfDigits q.1, q.2)
  | _ => if p.1.isEmpty then none else some ((intOfDigits p.1 : ℚ), p.2)

/-- Parse an optional exponent suffix; an `e` not followed by a digit is
ignored, matching the longest-valid-prefix rule of `parseFloat`. -/
def parseExponent (cs : List Char) : ℤ :=
  match cs with
  | 'e' :: rest | 'E' :: rest =>
      let signAndRest : ℤ × List Char :=
        match rest with
        | '-' :: r => (-1, r)
        | '+' :: r => (1, r)
        | _ => (1, rest)
      let ds := signAndRest.2.takeWhile isDigitCh
      if ds.isEmpty then 0 else signAndRest.1 * (intOfDigits ds : ℤ)
  | _ => 0

/-- The model of `parseFloat` on a string: leading whitespace, an optional
sign, `Infinity`, or a decimal mantissa with optional exponent; anything
unparsable is NaN.  Hexadecimal input parses its leading `0`, as in the
host. -/
def parseFloatStr (s : String) : JsNumber :=
  let cs := s.data.dropWhile isSpaceCh
  let signAndRest : ℚ × List Char :=
    match cs with
    | '-' :: r => (-1, r)
    | '+' :: r => (1, r)
    | _ => (1, cs)
  if List.isPrefixOf ['I','n','f','i','n','i','t','y'] signAndRest.2 then
    (if signAndRest.1 < 0 then .negInf else .posInf)
  else
    match parseMantissa signAndRest.2 with
    | none => .nan
    | some mr => .finite (signAndRest.1 * mr.1 * (10 : ℚ) ^ parseExponent mr.2)

/-- Decimal rendering of a rational, used by `String(value)` on numbers.
Fractions are printed to at most twenty digits; every number the engine
itself produces has a finite decimal expansion, so the cut-off is never
reached on engine output. -/
def ratToString (q : ℚ) : String :=
  if q = 0 then "0"
  else
    let sgn := if q < 0 then "-" else ""
    let a := |q|
    let ip : ℕ := (⌊a⌋).toNat
    let frac := a - (ip : ℚ)
    if frac = 0 then sgn ++ toString ip
    else
      let scaled : ℕ := (⌊frac * 10 ^ 20⌋).toNat
      let ds := toString scaled
      let padded := String.mk (List.replicate (20 - ds.length) '0') ++ ds
      let trimmed := String.mk (padded.data.reverse.dropWhile (fun c => c = '0')).reverse
      sgn ++ toString ip ++ "." ++ trimmed

/-- The rendering of `String(n)` for a number `n`. -/
def jsNumToString : JsNumber → String
  | .nan => "NaN"
  | .posInf => "Infinity"
  | .negInf => "-Infinity"
  | .finite q => ratToString q

mutual
/-- The model of `String(value)`; `none` when the conversion throws, which
happens exactly for symbols (also nested in an array being joined). -/
def jsString : JsValue → Option String
  | .undef => some "undefined"
  | .null => some "null"
  | .bool b => some (if b then "true" else "false")
  | .num n => some (jsNumToString n)
  | .str s => some s
  | .sym _ => none
  | .fn _ => some "function"
  | .promise _ => some "[object Promise]"
  | .obj _ => some "[object Object]"
  | .inst _ => some "[object Object]"
  | .arr es => (jsStringList es).map (String.intercalate ",")

/-- Elementwise stringification used by `Array.prototype.join`: null and
undefined render as the empty string. -/
def jsStringList : List JsValue → Option (List String)
  | [] => some []
  | v :: vs =>
      let hd : Option String :=
        match v with
        | .null => some ""
        | .undef => some ""
        | w => jsString w
      match hd, jsStringList vs with
      | some h, some t => some (h :: t)
      | _, _ => none
end

/-- The model of `parseFloat(value)` for an arbitrary value: a number is
returned unchanged (the exact round trip through its string form), and any
other value is parsed from its string form; `none` models the TypeError
thrown by stringifying a symbol. -/
def jsParseFloat (v : JsValue) : Option JsNumber :=
  match v with
  | .num n => some n
  | v => (jsString v).map parseFloatStr

/-- Test for `Math.floor`. -/
def jsFloor : JsNumber → JsNumber
  | .finite q => .finite (⌊q⌋ : ℤ)
  | x => x

/-- Test for `Math.round`, which is floor of the value plus one half. -/
def jsRound : JsNumber → JsNumber
  | .finite q => .finite (⌊q + 1/2⌋ : ℤ)
  | x => x

/-- Test for `Number.isInteger`. -/
def jsIsInteger : JsNumber → Bool
  | .finite q => q.den = 1
  | _ => false

/-- Test for `value === undefined`. -/
def isUndef : JsValue → Bool
  | .undef => true
  | _ => false

/-- Test for `value === null`. -/
def isNull : JsValue → Bool
  | .null => true
  | _ => false

/-- Test for `typeof value === 'symbol'`. -/
def isSym : JsValue → Bool
  | .sym _ => true
  | _ => false

/-- A type descriptor as the schema author supplies it: a kind-name string,
a class constructor (carrying its identity and its `name`), a plain
validator function (which may return a value or throw a message), a
regular expression, or an array of descriptors.  A regular expression
without the `g` or `y` flag has a stateless `test` and is the `pattern`
constructor, a pure test on the stringified value.  One with the `g` or
`y` flag is the `gpattern` constructor: its `test` is stateful through
the regex object's `lastIndex`, modelled by `matchEndFrom`, which
searches the string from a start index and returns the end index of the
match when one is found there; the descriptor carries the regex object's
current `lastIndex`, and validation returns the advanced descriptor next
to its outcome (`validateFieldG`, `runPropsG`), since the regex object
lives in the schema and is shared by successive calls. -/
inductive Descriptor where
  | kind (k : String)
  | cls (id : Nat) (name : String)
  | pred (f : JsValue → Except String JsValue)
  | pattern (test : String → Bool) (src : String)
  | gpattern (matchEndFrom : Nat → String → Option Nat) (lastIndex : Nat) (src : String)
  | union (members : List Descriptor)

/-- One `test()` call on a `g`/`y`-flag regex: search from `lastIndex`;
on a match return true and advance `lastIndex` to the match end, on a
failure return false and reset `lastIndex` to zero. -/
def testG (m : Nat → String → Option Nat) (lastIndex : Nat) (s : String) : Bool × Nat :=
  match m lastIndex s with
  | some e => (true, e)
  | none => (false, 0)

/-- Test for a stateful (g/y-flag) pattern descriptor. -/
def isGPattern : Descriptor → Bool
  | .gpattern _ _ _ => true
  | _ => false

/-- Structured form of the TypeErrors the engine throws; each constructor
carries the data interpolated into the corresponding message string. -/
inductive VErr where
  | arity (expected actual : Nat)
  | missingRequired (key : String)
  | notAnObject
  | typeMismatch (context expected got : String)
  | unionMismatch (key got : String)
  | notNumeric (key : String)
  | notInteger (key : String)
  | symbolString (key : String)
  | patternMismatch (key pat : String)
  | predicateReject (key : String)
  | predicateThrew (key msg : String)
  | validatorError (index : Nat) (msg : String)
  | returnMismatch (tyName : String)
  deriving DecidableEq, Repr

/-- The `#validateNumber` helper: in strict mode any non-number input type
is rejected outright; then the value is parsed with `parseFloat` and NaN
is a failure.  The `none` branch of `jsParseFloat` models the TypeError
thrown when stringifying a symbol. -/
def validateNumber (key : String) (strict : Bool) (v : JsValue) : Except VErr JsNumber :=
  if strict ∧ typeofStr v ≠ "number" then .error (.typeMismatch key "number" (typeofStr v))
  else
    match jsParseFloat v with
    | none => .error (.symbolString key)
    | some n => if n = .nan then .error (.notNumeric key) else .ok n

/-- The `#validateInteger` helper: parse as a number (strictly for
`strictint`), require `strictint` input to already be a whole number, then
round for `roundint` and floor otherwise. -/
def validateInteger (key : String) (ty : String) (v : JsValue) : Except VErr JsNumber :=
  match validateNumber key (ty = "strictint") v with
  | .error e => .error e
  | .ok n =>
      if ty = "strictint" ∧ ¬ jsIsInteger n then .error (.notInteger key)
      else .ok (if ty = "roundint" then jsRound n else jsFloor n)

/-- Test whether a union member is the string `'optional'` or `'undefined'`,
the markers that permit an absent value. -/
def markerKind : Descriptor → Bool
  | .kind k => k = "optional" ∨ k = "undefined"
  | _ => false

/-- Test used by the union branch of `#validate`: `types.includes(typeof
value)` compares each member against the `typeof` string, so only members
that are exactly that kind-name string can match. -/
def memberIsTypeof (d : Descriptor) (t : String) : Bool :=
  match d with
  | .kind k => k = t
  | _ => false

/-- One field of an object schema validated against a kind-name string
descriptor, following the else-if chain of `#validate`: `optional` skips,
an absent value is a missing required parameter, `any`/`array`/
`strictboolean` check without coercing, `boolean` coerces by truthiness,
the integer and float families coerce numerically, and any other name is
an exact `typeof` comparison.  The result distinguishes passing without
write-back (`none`) from passing with a coerced value written back into
the bag (`some`). -/
def validateKindField (key : String) (k : String) (value : JsValue) :
    Except VErr (Option JsValue) :=
  if k = "optional" then .ok none
  else if isUndef value then .error (.missingRequired key)
  else if k = "any" then .ok none
  else if k = "array" then
    (if isArray value then .ok none else .error (.typeMismatch key "Array" (typeofStr value)))
  else if k = "strictboolean" then
    (if typeofStr value = "boolean" then .ok none
     else .error (.typeMismatch key "boolean" (typeofStr value)))
  else if k = "boolean" then .ok (some (.bool (truthy value)))
  else if k = "strictint" ∨ k = "int" ∨ k = "roundint" then
    (validateInteger key k value).map (fun n => some (.num n))
  else if k = "strictfloat" ∨ k = "float" ∨ k = "number" then
    (validateNumber key (k = "strictfloat") value).map (fun n => some (.num n))
  else if typeofStr value = k then .ok none
  else .error (.typeMismatch key k (typeofStr value))

/-- One field of an object schema validated against its descriptor,
following `#validate`: array descriptors take the union branch (absent ok
iff a marker member is present, null ok unconditionally, otherwise the
`typeof` string must be listed among the non-marker members, never with a
write-back); `optional` is checked before the required-parameter check;
validator functions are invoked on the raw value and judged by truthiness
with no check on a pending Promise result; class constructors check
`instanceof`; regular expressions stringify the value (symbols throw) and
write the string form back. -/
def validateField (key : String) (validator : Descriptor) (value : JsValue) :
    Except VErr (Option JsValue) :=
  match validator with
  | .union members =>
      if isUndef value ∧ members.any markerKind then .ok none
      else if isNull value then .ok none
      else if ((members.filter (fun m => ¬ markerKind m)).any
                 (fun m => memberIsTypeof m (typeofStr value))) then .ok none
      else .error (.unionMismatch key (typeofStr value))
  | .pred f =>
      if isUndef value then .error (.missingRequired key)
      else
        match f value with
        | .error msg => .error (.predicateThrew key msg)
        | .ok r => if truthy r then .ok none else .error (.predicateReject key)
  | .cls c name =>
      if isUndef value then .error (.missingRequired key)
      else if isInstance c value then .ok none
      else .error (.typeMismatch key name (typeofStr value))
  | .pattern test src =>
      if isUndef value then .error (.missingRequired key)
      else if isSym value then .error (.symbolString key)
      else
        match jsString value with
        | none => .error (.symbolString key)
        | some s => if test s then .ok (some (.str s)) else .error (.patternMismatch key src)
  | .gpattern m li src =>
      if isUndef value then .error (.missingRequired key)
      else if isSym value then .error (.symbolString key)
      else
        match jsString value with
        | none => .error (.symbolString key)
        | some s =>
            if (testG m li s).1 then .ok (some (.str s)) else .error (.patternMismatch key src)
  | .kind k => validateKindField key k value

/-- The field validation of `#validate` together with the mutation of the
schema-resident regex object: for a `g`/`y`-flag pattern the `test()` call
advances (or resets) the stored `lastIndex` whenever it runs, whatever the
outcome; every other descriptor is stateless and returned unchanged, and
the validation outcome is that of `validateField`. -/
def validateFieldG (key : String) (validator : Descriptor) (value : JsValue) :
    Except VErr (Option JsValue) × Descriptor :=
  match validator with
  | .gpattern m li src =>
      if isUndef value then (.error (.missingRequired key), .gpattern m li src)
      else if isSym value then (.error (.symbolString key), .gpattern m li src)
      else
        match jsString value with
        | none => (.error (.symbolString key), .gpattern m li src)
        | some s =>
            (if (testG m li s).1 then .ok (some (.str s))
             else .error (.patternMismatch key src),
             .gpattern m (testG m li s).2 src)
  | d => (validateField key d value, d)

/-- Lookup in a name-keyed bag; a missing key reads as `undefined`. -/
def lookupBag : List (String × JsValue) → String → JsValue
  | [], _ => .undef
  | p :: rest, k => if p.1 = k then p.2 else lookupBag rest k

/-- The assignment `opts[key] = v`: replace the first binding of the key,
or append a fresh binding when the key is absent. -/
def setKey : List (String × JsValue) → String → JsValue → List (String × JsValue)
  | [], k, v => [(k, v)]
  | p :: rest, k, v => if p.1 = k then (p.1, v) :: rest else p :: setKey rest k v

/-- The object-schema loop of `#validate` with its mutation made explicit:
fields are processed in schema declaration order, each write-back updating
the bag, and the first failure stops the loop.  The returned bag is the
bag as it stands at that moment — on the object path this is the very
object the caller passed in, so it is the caller-visible state after the
call. -/
def runProps : List (String × Descriptor) → List (String × JsValue) →
    Except VErr Unit × List (String × JsValue)
  | [], bag => (.ok (), bag)
  | (k, d) :: rest, bag =>
      match validateField k d (lookupBag bag k) with
      | .error e => (.error e, bag)
      | .ok none => runProps rest bag
      | .ok (some w) => runProps rest (setKey bag k w)

/-- The object-schema loop of `#validate` with the mutation of both the
bag and the schema-resident regex objects made explicit: next to the
outcome and the final bag it returns the schema as it stands after the
call, with each `g`/`y`-flag pattern's `lastIndex` advanced by the tests
that actually ran; a later call against the same schema object starts
from this state. -/
def runPropsG : List (String × Descriptor) → List (String × JsValue) →
    Except VErr Unit × List (String × JsValue) × List (String × Descriptor)
  | [], bag => (.ok (), bag, [])
  | (k, d) :: rest, bag =>
      match validateFieldG k d (lookupBag bag k) with
      | (.error e, d2) => (.error e, bag, (k, d2) :: rest)
      | (.ok none, d2) =>
          match runPropsG rest bag with
          | (r, bag2, rest2) => (r, bag2, (k, d2) :: rest2)
      | (.ok (some w), d2) =>
          match runPropsG rest (setKey bag k w) with
          | (r, bag2, rest2) => (r, bag2, (k, d2) :: rest2)

/-- Validation of an object-schema bag: the final bag on success, the
thrown error otherwise. -/
def validateProps (schema : List (String × Descriptor)) (bag : List (String × JsValue)) :
    Except VErr (List (String × JsValue)) :=
  match runProps schema bag with
  | (.ok _, bag2) => .ok bag2
  | (.error e, _) => .error e

/-- The match function of the anchored global regex `/^test$/g` (the
g-flag regex form the README documents): the pattern matches only at
position zero of the string `test`, ending at index 4, so a search that
starts past position zero finds nothing. -/
def matchTestAnchored : Nat → String → Option Nat :=
  fun li s => if li = 0 ∧ s = "test" then some 4 else none

/-- One positional argument validated against its descriptor, following
the `forEach` body of `#validateArrayTypes`: validator functions run in a
try block that also catches the engine's own throws, so every predicate
failure — including a pending Promise result, rejected before the result
is read as a boolean — surfaces as a wrapped validator error; class
constructors check `instanceof`; the integer family coerces with a
write-back; any other string is an exact `typeof` comparison; every other
descriptor shape (regular expressions, nested arrays) falls through all
the checks and passes without being validated. -/
def validateOneArg (index : Nat) (ty : Descriptor) (value : JsValue) :
    Except VErr (Option JsValue) :=
  match ty with
  | .pred f =>
      match f value with
      | .error msg => .error (.validatorError index msg)
      | .ok r =>
          if isPromise r then .error (.validatorError index "Validator functions must be synchronous")
          else if truthy r then .ok none
          else .error (.validatorError index "failed validation")
  | .cls c name =>
      if isInstance c value then .ok none
      else .error (.typeMismatch ("Argument " ++ toString index) name (typeofStr value))
  | .kind k =>
      if k = "int" ∨ k = "roundint" ∨ k = "strictint" then
        (validateInteger ("Argument " ++ toString index) k value).map (fun n => some (.num n))
      else if typeofStr value = k then .ok none
      else .error (.typeMismatch ("Argument " ++ toString index) k (typeofStr value))
  | _ => .ok none

/-- The index-carrying loop of `#validateArrayTypes`: each position is
checked against its descriptor and integer coercions are written back into
the argument list; positions beyond the descriptor list are never
touched. -/
def validateArgsFrom : List Descriptor → Nat → List JsValue →
    Except VErr (List JsValue)
  | [], _, values => .ok values
  | ty :: rest, i, values =>
      match validateOneArg i ty (values.getD i .undef) with
      | .error e => .error e
      | .ok none => validateArgsFrom rest (i + 1) values
      | .ok (some w) => validateArgsFrom rest (i + 1) (values.set i w)

/-- The `#validateArrayTypes` entry: an empty descriptor list rejects any
argument (the zero-parameter schema); otherwise fewer actual arguments
than descriptors is an arity error carrying both counts, and each position
is validated in order. -/
def validateArrayTypes (types : List Descriptor) (values : List JsValue) :
    Except VErr (List JsValue) :=
  if types.isEmpty then
    (if values.isEmpty then .ok values else .error (.arity 0 values.length))
  else if values.length < types.length then .error (.arity types.length values.length)
  else validateArgsFrom types 0 values

/-- The positional branch of the dispatching closure: validation runs on
the per-call argument list, and on success the callback is invoked with
the coerced list spread back into positional arguments.  An `.ok args`
means the callback runs with `args`; an `.error` means the TypeError
propagates and the callback never runs. -/
def dispatchPositional (types : List Descriptor) (params : List JsValue) :
    Except VErr (List JsValue) :=
  validateArrayTypes types params

/-- The argument list the user callback is invoked with, when it is
invoked at all: dispatching that ends in a thrown TypeError never reaches
the callback. -/
def callbackInvocation : Except VErr (List JsValue) → Option (List JsValue)
  | .ok args => some args
  | .error _ => none

/-- The object branch of the dispatching closure, for a caller-supplied
object: `#validate` receives `params[0]` itself, so the working bag is the
caller's own object.  The first component is the callback invocation as in
`dispatchPositional`; the second is the content of the caller's object
after the call, whatever the outcome. -/
def objectCall (schema : List (String × Descriptor)) (callerObj : List (String × JsValue)) :
    Except VErr (List JsValue) × List (String × JsValue) :=
  match runProps schema callerObj with
  | (.ok _, bag) => (.ok [JsValue.obj bag], bag)
  | (.error e, bag) => (.error e, bag)

/-- The single-parameter branch of the dispatching closure, taken when the
schema object has exactly one key, named `value`, bound to a kind-name
string: the bare first argument is wrapped into a fresh one-field bag,
validated as an object schema, and on success the callback is invoked with
that bag object. -/
def dispatchSingle (k : String) (params : List JsValue) : Except VErr (List JsValue) :=
  match validateProps [("value", .kind k)] [("value", params.getD 0 .undef)] with
  | .error e => .error e
  | .ok bag => .ok [JsValue.obj bag]

/-- Pass/fail reading of a coercion helper inside a try/catch that turns
any throw into `false`. -/
def coercionPasses (r : Except VErr JsNumber) : Bool :=
  match r with
  | .ok _ => true
  | .error _ => false

/-- Test for `value === t` against one of the literals `0`, `1`, `'true'`,
`'false'` accepted by the return-side boolean check. -/
def isBooleanLiteral : JsValue → Bool
  | .num (.finite q) => q = 0 ∨ q = 1
  | .str s => s = "true" ∨ s = "false"
  | _ => false

/-- The `#checkType` helper used on the return side: custom validators
must return the literal `true`; classes check `instanceof`; `void` and
`undefined` accept exactly the absent value, every other type rejects it;
`any` accepts everything else; `boolean` accepts actual booleans or one of
the four literals `0`, `1`, `'true'`, `'false'` with no coercion; numeric
kinds reuse the coercion helpers but only as a pass/fail test; regular
expressions test the string form and read a conversion throw as failure;
anything else is an exact `typeof` comparison. -/
def checkType (ty : Descriptor) (value : JsValue) : Except VErr Bool :=
  match ty with
  | .pred f =>
      match f value with
      | .error msg => .error (.predicateThrew "return" msg)
      | .ok r => .ok (match r with | .bool true => true | _ => false)
  | .cls c _ => .ok (isInstance c value)
  | .pattern test _ =>
      if isUndef value then .ok false
      else .ok (match jsString value with | some s => test s | none => false)
  | .gpattern m li _ =>
      if isUndef value then .ok false
      else .ok (match jsString value with | some s => (testG m li s).1 | none => false)
  | .union _ => .ok false
  | .kind k =>
      if k = "void" then .ok (isUndef value)
      else if k = "undefined" then .ok (isUndef value)
      else if isUndef value then .ok false
      else if k = "any" then .ok true
      else if k = "array" then .ok (isArray value)
      else if k = "strictboolean" then .ok (typeofStr value = "boolean")
      else if k = "boolean" then .ok (typeofStr value = "boolean" ∨ isBooleanLiteral value)
      else if k = "int" ∨ k = "roundint" ∨ k = "strictint" then
        .ok (coercionPasses (validateInteger "return" k value))
      else if k = "strictfloat" ∨ k = "float" ∨ k = "number" then
        .ok (coercionPasses (validateNumber "return" (k = "strictfloat") value))
      else .ok (typeofStr value = k)

/-- The display name a failing single return type is reported under. -/
def descName : Descriptor → String
  | .kind k => k
  | .cls _ name => name
  | .pred _ => "custom validator"
  | .pattern _ src => src
  | .gpattern _ _ src => src
  | .union _ => "union"

/-- The single-type branch of `#validateReturn`. -/
def validateReturn (value : JsValue) (ty : Descriptor) : Except VErr Unit :=
  match checkType ty value with
  | .error e => .error e
  | .ok true => .ok ()
  | .ok false => .error (.returnMismatch (descName ty))

/-- The wrapped callback's return path: the resolved result is checked and
then handed back to the caller unmodified. -/
def returnCheckedResult (result : JsValue) (ty : Descriptor) : Except VErr JsValue :=
  match validateReturn result ty with
  | .ok _ => .ok result
  | .error e => .error e

/-- Membership of a kind name in the integer family. -/
def intKind (k : String) : Bool := k = "int" ∨ k = "roundint" ∨ k = "strictint"

/-- Membership of a kind name in the float family. -/
def floatKind (k : String) : Bool := k = "float" ∨ k = "number" ∨ k = "strictfloat"

/-- The runtime kind a kind-name descriptor targets, as a test on the
value held by a successfully validated field: numeric kinds hold numbers,
boolean kinds hold booleans, `array` holds arrays, structural names are
exact `typeof` tags, and the kinds without a target (`any`, the optional
markers) accept anything. -/
def kindTargetOk (k : String) (v : JsValue) : Bool :=
  if k = "optional" ∨ k = "undefined" ∨ k = "any" then true
  else if k = "boolean" ∨ k = "strictboolean" then typeofStr v = "boolean"
  else if intKind k ∨ floatKind k then typeofStr v = "number"
  else if k = "array" then isArray v
  else if k = "null" then isNull v
  else typeofStr v = k

/-- The target-kind test for an object-schema field: kind names as above,
classes demand instances, patterns demand strings; predicates and unions
impose no kind on the stored value. -/
def kindOk (d : Descriptor) (v : JsValue) : Bool :=
  match d with
  | .kind k => kindTargetOk k v
  | .cls c _ => isInstance c v
  | .pattern _ _ => typeofStr v = "string"
  | .gpattern _ _ _ => typeofStr v = "string"
  | .pred _ => true
  | .union _ => true

/-- The target-kind test for a positional argument: only kind names,
classes and predicates are checked on that path, so pattern and union
descriptors impose nothing there. -/
def posKindOk (d : Descriptor) (v : JsValue) : Bool :=
  match d with
  | .kind k => if intKind k then typeofStr v = "number" else typeofStr v = k
  | .cls c _ => isInstance c v
  | _ => true

/-- The value a field holds after validation: the written-back coercion
when there is one, the original value otherwise. -/
def afterField (v : JsValue) (r : Option JsValue) : JsValue := r.getD v

/-! Facts about `typeof` tags. -/

theorem typeofStr_mem (v : JsValue) :
    typeofStr v = "undefined" ∨ typeofStr v = "object" ∨ typeofStr v = "boolean" ∨
    typeofStr v = "number" ∨ typeofStr v = "string" ∨ typeofStr v = "symbol" ∨
    typeofStr v = "function" := by
  cases v <;> simp [typeofStr]

theorem typeofStr_undef_iff (v : JsValue) : typeofStr v = "undefined" ↔ v = .undef := by
  cases v <;> simp [typeofStr]

theorem isUndef_iff (v : JsValue) : isUndef v = true ↔ v = .undef := by
  cases v <;> simp [isUndef]

theorem isNull_iff (v : JsValue) : isNull v = true ↔ v = .null := by
  cases v <;> simp [isNull]

/-! Facts about the numeric helpers. -/

theorem validateNumber_ok_ne_nan {key : String} {strict : Bool} {v : JsValue}
    {n : JsNumber} (h : validateNumber key strict v = .ok n) : n ≠ .nan := by
  unfold validateNumber at h
  split at h
  · exact absurd h (by simp)
  · revert h
    cases jsParseFloat v with
    | none => intro h; exact absurd h (by simp)
    | some m =>
        simp only []
        split
        · intro h; exact absurd h (by simp)
        · intro h
          cases h
          assumption

theorem validateNumber_num {key : String} {strict : Bool} {n : JsNumber}
    (h : n ≠ .nan) : validateNumber key strict (.num n) = .ok n := by
  unfold validateNumber
  simp [typeofStr, jsParseFloat, h]

theorem jsFloor_ne_nan {n : JsNumber} (h : n ≠ .nan) : jsFloor n ≠ .nan := by
  cases n <;> simp_all [jsFloor]

theorem jsRound_ne_nan {n : JsNumber} (h : n ≠ .nan) : jsRound n ≠ .nan := by
  cases n <;> simp_all [jsRound]

theorem jsFloor_idem (n : JsNumber) : jsFloor (jsFloor n) = jsFloor n := by
  cases n <;> simp [jsFloor]

theorem jsRound_idem (n : JsNumber) : jsRound (jsRound n) = jsRound n := by
  cases n with
  | finite q =>
      simp only [jsRound]
      congr 1
      rw [add_comm, Int.floor_add_int]
      norm_num
  | posInf => rfl
  | negInf => rfl
  | nan => rfl

theorem jsRound_of_integer {n : JsNumber} (h : jsIsInteger n = true) : jsRound n = n := by
  cases n with
  | finite q =>
      simp only [jsIsInteger, decide_eq_true_eq] at h
      simp only [jsRound]
      congr 1
      rw [← Rat.coe_int_num_of_den_eq_one h, add_comm, Int.floor_add_int]
      norm_num
  | posInf => simp [jsIsInteger] at h
  | negInf => simp [jsIsInteger] at h
  | nan => simp [jsIsInteger] at h

theorem jsFloor_of_integer {n : JsNumber} (h : jsIsInteger n = true) : jsFloor n = n := by
  cases n with
  | finite q =>
      simp only [jsIsInteger, decide_eq_true_eq] at h
      simp only [jsFloor]
      congr 1
      rw [← Rat.coe_int_num_of_den_eq_one h, Int.floor_intCast]
  | posInf => simp [jsIsInteger] at h
  | negInf => simp [jsIsInteger] at h
  | nan => simp [jsIsInteger] at h

theorem jsIsInteger_jsFloor {n : JsNumber} (h : n ≠ .nan) (h2 : n ≠ .posInf)
    (h3 : n ≠ .negInf) : jsIsInteger (jsFloor n) = true := by
  cases n <;> simp_all [jsFloor, jsIsInteger]

theorem validateInteger_num_eq {key ty : String} {n : JsNumber} (h : n ≠ .nan) :
    validateInteger key ty (.num n) =
      if ty = "strictint" ∧ ¬ jsIsInteger n = true then .error (.notInteger key)
      else .ok (if ty = "roundint" then jsRound n else jsFloor n) := by
  unfold validateInteger
  rw [validateNumber_num h]

theorem validateInteger_out {key ty : String} {v : JsValue} {n : JsNumber}
    (h : validateInteger key ty v = .ok n) : validateInteger key ty (.num n) = .ok n := by
  unfold validateInteger at h
  cases hN : validateNumber key (ty = "strictint") v with
  | error e => rw [hN] at h; exact absurd h (by simp)
  | ok m =>
      rw [hN] at h
      simp only [] at h
      have hmnan : m ≠ .nan := validateNumber_ok_ne_nan hN
      split at h
      · exact absurd h (by simp)
      · rename_i hstrict
        have hn : (if ty = "roundint" then jsRound m else jsFloor m) = n := by
          injection h
        by_cases hrt : ty = "roundint"
        · rw [if_pos hrt] at hn
          subst hn
          rw [validateInteger_num_eq (jsRound_ne_nan hmnan)]
          rw [if_neg (by rintro ⟨h1, _⟩; rw [h1] at hrt; exact absurd hrt (by decide))]
          rw [if_pos hrt, jsRound_idem]
        · rw [if_neg hrt] at hn
          subst hn
          by_cases hst : ty = "strictint"
          · have hint : jsIsInteger m = true := by
              by_contra hc
              exact hstrict ⟨hst, by simpa using hc⟩
            rw [jsFloor_of_integer hint]
            rw [validateInteger_num_eq hmnan]
            rw [if_neg (by rintro ⟨_, hc⟩; exact hc hint)]
            rw [if_neg hrt, jsFloor_of_integer hint]
          · rw [validateInteger_num_eq (jsFloor_ne_nan hmnan)]
            rw [if_neg (by rintro ⟨h1, _⟩; exact hst h1)]
            rw [if_neg hrt, jsFloor_idem]

/-! Field-level facts used by the bag-level inductions. -/

theorem validateKindField_kindOk {key k : String} {v : JsValue} {r : Option JsValue}
    (h : validateKindField key k v = .ok r) : kindTargetOk k (afterField v r) = true := by
  by_cases h1 : k = "optional"
  · subst h1
    simp only [validateKindField, if_pos rfl] at h
    injection h with h
    subst h
    simp [kindTargetOk, afterField]
  unfold validateKindField at h
  rw [if_neg h1] at h
  by_cases hu : isUndef v = true
  · rw [if_pos hu] at h
    exact absurd h (by simp)
  rw [if_neg hu] at h
  by_cases h3 : k = "any"
  · subst h3
    rw [if_pos rfl] at h
    injection h with h
    subst h
    simp [kindTargetOk, afterField]
  rw [if_neg h3] at h
  by_cases h4 : k = "array"
  · subst h4
    rw [if_pos rfl] at h
    by_cases hArr : isArray v = true
    · rw [if_pos hArr] at h
      injection h with h
      subst h
      simpa [kindTargetOk, afterField] using hArr
    · rw [if_neg hArr] at h
      exact absurd h (by simp)
  rw [if_neg h4] at h
  by_cases h5 : k = "strictboolean"
  · subst h5
    rw [if_pos rfl] at h
    by_cases hTB : typeofStr v = "boolean"
    · rw [if_pos hTB] at h
      injection h with h
      subst h
      simpa [kindTargetOk, afterField] using hTB
    · rw [if_neg hTB] at h
      exact absurd h (by simp)
  rw [if_neg h5] at h
  by_cases h6 : k = "boolean"
  · subst h6
    rw [if_pos rfl] at h
    injection h with h
    subst h
    simp [kindTargetOk, afterField, typeofStr]
  rw [if_neg h6] at h
  by_cases h7 : k = "strictint" ∨ k = "int" ∨ k = "roundint"
  · rw [if_pos h7] at h
    cases hI : validateInteger key k v with
    | error e => rw [hI] at h; exact absurd h (by simp [Except.map])
    | ok n =>
        rw [hI] at h
        simp only [Except.map] at h
        injection h with h
        subst h
        rcases h7 with h7 | h7 | h7 <;> subst h7 <;>
          simp [kindTargetOk, afterField, typeofStr, intKind, floatKind]
  rw [if_neg h7] at h
  by_cases h8 : k = "strictfloat" ∨ k = "float" ∨ k = "number"
  · rw [if_pos h8] at h
    cases hI : validateNumber key (k = "strictfloat") v with
    | error e => rw [hI] at h; exact absurd h (by simp [Except.map])
    | ok n =>
        rw [hI] at h
        simp only [Except.map] at h
        injection h with h
        subst h
        rcases h8 with h8 | h8 | h8 <;> subst h8 <;>
          simp [kindTargetOk, afterField, typeofStr, intKind, floatKind]
  rw [if_neg h8] at h
  by_cases hTy : typeofStr v = k
  · rw [if_pos hTy] at h
    injection h with h
    subst h
    by_cases hund : k = "undefined"
    · subst hund
      rw [typeofStr_undef_iff] at hTy
      rw [← isUndef_iff] at hTy
      exact absurd hTy hu
    unfold kindTargetOk
    rw [if_neg (by push_neg; exact ⟨h1, hund, h3⟩)]
    rw [if_neg (by push_neg; exact ⟨h6, h5⟩)]
    rw [if_neg (by
      simp only [intKind, floatKind, decide_eq_true_eq]
      rintro (c | c)
      · exact h7 (by tauto)
      · exact h8 (by tauto))]
    rw [if_neg h4]
    by_cases hnull : k = "null"
    · subst hnull
      rcases typeofStr_mem v with t | t | t | t | t | t | t <;> rw [t] at hTy <;>
        exact absurd hTy (by decide)
    rw [if_neg hnull]
    exact by simpa [afterField] using hTy
  · rw [if_neg hTy] at h
    exact absurd h (by simp)

theorem validateField_kindOk {key : String} {d : Descriptor} {v : JsValue}
    {r : Option JsValue} (h : validateField key d v = .ok r) :
    kindOk d (afterField v r) = true := by
  cases d with
  | union members => simp [kindOk]
  | pred f => simp [kindOk]
  | gpattern m li src =>
      simp only [validateField] at h
      by_cases hu : isUndef v = true
      · rw [if_pos hu] at h
        exact absurd h (by simp)
      rw [if_neg hu] at h
      by_cases hs : isSym v = true
      · rw [if_pos hs] at h
        exact absurd h (by simp)
      rw [if_neg hs] at h
      cases hj : jsString v with
      | none => rw [hj] at h; exact absurd h (by simp)
      | some s =>
          rw [hj] at h
          simp only [] at h
          by_cases ht : (testG m li s).1 = true
          · rw [if_pos ht] at h
            injection h with h
            subst h
            simp [kindOk, afterField, typeofStr]
          · rw [if_neg ht] at h
            exact absurd h (by simp)
  | cls c name =>
      simp only [validateField] at h
      by_cases hu : isUndef v = true
      · rw [if_pos hu] at h
        exact absurd h (by simp)
      rw [if_neg hu] at h
      by_cases hi : isInstance c v = true
      · rw [if_pos hi] at h
        injection h with h
        subst h
        simpa [kindOk, afterField] using hi
      · rw [if_neg hi] at h
        exact absurd h (by simp)
  | pattern test src =>
      simp only [validateField] at h
      by_cases hu : isUndef v = true
      · rw [if_pos hu] at h
        exact absurd h (by simp)
      rw [if_neg hu] at h
      by_cases hs : isSym v = true
      · rw [if_pos hs] at h
        exact absurd h (by simp)
      rw [if_neg hs] at h
      cases hj : jsString v with
      | none => rw [hj] at h; exact absurd h (by simp)
      | some s =>
          rw [hj] at h
          simp only [] at h
          by_cases ht : test s = true
          · rw [if_pos ht] at h
            injection h with h
            subst h
            simp [kindOk, afterField, typeofStr]
          · rw [if_neg ht] at h
            exact absurd h (by simp)
  | kind k => exact validateKindField_kindOk h

theorem validateKindField_write_idem {key k : String} {v w : JsValue}
    (h : validateKindField key k v = .ok (some w)) :
    validateKindField key k w = .ok (some w) := by
  by_cases h1 : k = "optional"
  · subst h1
    simp only [validateKindField, if_pos rfl] at h
    exact absurd h (by simp)
  unfold validateKindField at h
  rw [if_neg h1] at h
  by_cases hu : isUndef v = true
  · rw [if_pos hu] at h
    exact absurd h (by simp)
  rw [if_neg hu] at h
  by_cases h3 : k = "any"
  · rw [if_pos h3] at h
    exact absurd h (by simp)
  rw [if_neg h3] at h
  by_cases h4 : k = "array"
  · rw [if_pos h4] at h
    by_cases hArr : isArray v = true
    · rw [if_pos hArr] at h
      exact absurd h (by simp)
    · rw [if_neg hArr] at h
      exact absurd h (by simp)
  rw [if_neg h4] at h
  by_cases h5 : k = "strictboolean"
  · rw [if_pos h5] at h
    by_cases hTB : typeofStr v = "boolean"
    · rw [if_pos hTB] at h
      exact absurd h (by simp)
    · rw [if_neg hTB] at h
      exact absurd h (by simp)
  rw [if_neg h5] at h
  by_cases h6 : k = "boolean"
  · subst h6
    rw [if_pos rfl] at h
    injection h with h
    injection h with h
    subst h
    rfl
  rw [if_neg h6] at h
  by_cases h7 : k = "strictint" ∨ k = "int" ∨ k = "roundint"
  · rw [if_pos h7] at h
    cases hI : validateInteger key k v with
    | error e => rw [hI] at h; exact absurd h (by simp [Except.map])
    | ok n =>
        rw [hI] at h
        simp only [Except.map] at h
        injection h with h
        injection h with h
        subst h
        have hOut := validateInteger_out hI
        rcases h7 with h7 | h7 | h7 <;> subst h7 <;>
          · show Except.map _ (validateInteger key _ (.num n)) = _
            rw [hOut]
            rfl
  rw [if_neg h7] at h
  by_cases h8 : k = "strictfloat" ∨ k = "float" ∨ k = "number"
  · rw [if_pos h8] at h
    cases hI : validateNumber key (k = "strictfloat") v with
    | error e => rw [hI] at h; exact absurd h (by simp [Except.map])
    | ok n =>
        rw [hI] at h
        simp only [Except.map] at h
        injection h with h
        injection h with h
        subst h
        have hnn : n ≠ .nan := validateNumber_ok_ne_nan hI
        rcases h8 with h8 | h8 | h8 <;> subst h8 <;>
          · show Except.map _ (validateNumber key _ (.num n)) = _
            rw [validateNumber_num hnn]
            rfl
  rw [if_neg h8] at h
  by_cases hTy : typeofStr v = k
  · rw [if_pos hTy] at h
    exact absurd h (by simp)
  · rw [if_neg hTy] at h
    exact absurd h (by simp)

theorem validateField_write_idem {key : String} {d : Descriptor} {v w : JsValue}
    (h : validateField key d v = .ok (some w)) :
    validateField key d w = .ok (some w) := by
  cases d with
  | union members =>
      simp only [validateField] at h
      split_ifs at h <;> exact absurd h (by simp)
  | gpattern m li src =>
      simp only [validateField] at h
      by_cases hu : isUndef v = true
      · rw [if_pos hu] at h
        exact absurd h (by simp)
      rw [if_neg hu] at h
      by_cases hs : isSym v = true
      · rw [if_pos hs] at h
        exact absurd h (by simp)
      rw [if_neg hs] at h
      cases hj : jsString v with
      | none => rw [hj] at h; exact absurd h (by simp)
      | some s =>
          rw [hj] at h
          simp only [] at h
          by_cases ht : (testG m li s).1 = true
          · rw [if_pos ht] at h
            injection h with h
            injection h with h
            subst h
            show (if (testG m li s).1 = true then _ else _) = _
            rw [if_pos ht]
          · rw [if_neg ht] at h
            exact absurd h (by simp)
  | pred f =>
      simp only [validateField] at h
      by_cases hu : isUndef v = true
      · rw [if_pos hu] at h
        exact absurd h (by simp)
      rw [if_neg hu] at h
      cases hf : f v with
      | error m => rw [hf] at h; exact absurd h (by simp)
      | ok r =>
          rw [hf] at h
          simp only [] at h
          by_cases ht : truthy r = true
          · rw [if_pos ht] at h
            exact absurd h (by simp)
          · rw [if_neg ht] at h
            exact absurd h (by simp)
  | cls c name =>
      simp only [validateField] at h
      split_ifs at h
      all_goals exact absurd h (by simp)
  | pattern test src =>
      simp only [validateField] at h
      by_cases hu : isUndef v = true
      · rw [if_pos hu] at h
        exact absurd h (by simp)
      rw [if_neg hu] at h
      by_cases hs : isSym v = true
      · rw [if_pos hs] at h
        exact absurd h (by simp)
      rw [if_neg hs] at h
      cases hj : jsString v with
      | none => rw [hj] at h; exact absurd h (by simp)
      | some s =>
          rw [hj] at h
          simp only [] at h
          by_cases ht : test s = true
          · rw [if_pos ht] at h
            injection h with h
            injection h with h
            subst h
            show (if test s then _ else _) = _
            rw [if_pos ht]
          · rw [if_neg ht] at h
            exact absurd h (by simp)
  | kind k => exact validateKindField_write_idem h

theorem validateField_write_not_undef {key : String} {d : Descriptor} {v w : JsValue}
    (h : validateField key d v = .ok (some w)) : isUndef w = false := by
  have hk := validateField_write_idem h
  by_cases hu : isUndef w = true
  · exfalso
    have hw : w = .undef := (isUndef_iff w).1 hu
    subst hw
    cases d with
    | union members =>
        simp only [validateField] at hk
        split_ifs at hk <;> simp_all
    | gpattern m li src => simp [validateField, isUndef] at hk
    | pred f => simp [validateField, isUndef] at hk
    | cls c name => simp [validateField, isUndef] at hk
    | pattern test src => simp [validateField, isUndef] at hk
    | kind k =>
        simp only [validateField] at hk
        unfold validateKindField at hk
        by_cases h1 : k = "optional"
        · rw [if_pos h1] at hk
          simp at hk
        · rw [if_neg h1] at hk
          simp [isUndef] at hk
  · simpa using hu

/-! Facts about bag lookup and assignment. -/

theorem lookupBag_setKey_self (bag : List (String × JsValue)) (k : String) (v : JsValue) :
    lookupBag (setKey bag k v) k = v := by
  induction bag with
  | nil => simp [setKey, lookupBag]
  | cons p rest ih =>
      by_cases hp : p.1 = k
      · simp [setKey, hp, lookupBag]
      · simp [setKey, hp, lookupBag, ih]

theorem lookupBag_setKey_ne (bag : List (String × JsValue)) {k k2 : String}
    (v : JsValue) (h : k2 ≠ k) : lookupBag (setKey bag k v) k2 = lookupBag bag k2 := by
  have hne : ¬ k = k2 := fun hc => h hc.symm
  induction bag with
  | nil =>
      simp only [setKey, lookupBag]
      rw [if_neg hne]
  | cons p rest ih =>
      obtain ⟨pk, pv⟩ := p
      by_cases hp : pk = k
      · subst hp
        simp only [setKey, if_pos rfl, lookupBag]
        rw [if_neg hne, if_neg hne]
      · simp only [setKey, if_neg hp, lookupBag]
        by_cases hp2 : pk = k2
        · rw [if_pos hp2, if_pos hp2]
        · rw [if_neg hp2, if_neg hp2]
          exact ih

theorem setKey_of_lookup {bag : List (String × JsValue)} {k : String} {v : JsValue}
    (h : lookupBag bag k = v) (hv : isUndef v = false) : setKey bag k v = bag := by
  induction bag with
  | nil =>
      simp only [lookupBag] at h
      rw [← h] at hv
      simp [isUndef] at hv
  | cons p rest ih =>
      obtain ⟨pk, pv⟩ := p
      by_cases hp : pk = k
      · simp only [lookupBag, if_pos hp] at h
        simp only [setKey, if_pos hp]
        rw [h]
      · simp only [lookupBag, if_neg hp] at h
        simp only [setKey, if_neg hp]
        rw [ih h]

/-! Unfolding equations and structural facts for object-schema validation. -/

theorem validateProps_nil (bag : List (String × JsValue)) :
    validateProps [] bag = .ok bag := rfl

theorem validateProps_cons (k : String) (d : Descriptor)
    (rest : List (String × Descriptor)) (bag : List (String × JsValue)) :
    validateProps ((k, d) :: rest) bag =
      match validateField k d (lookupBag bag k) with
      | .error e => .error e
      | .ok none => validateProps rest bag
      | .ok (some w) => validateProps rest (setKey bag k w) := by
  show (match runProps ((k, d) :: rest) bag with
        | (Except.ok _, bag2) => Except.ok bag2
        | (Except.error e, _) => Except.error e) = _
  unfold runProps
  cases validateField k d (lookupBag bag k) with
  | error e => rfl
  | ok r => cases r <;> rfl

theorem validateProps_lookup_not_mem :
    ∀ {schema : List (String × Descriptor)} {bag bag2 : List (String × JsValue)} {k : String},
      validateProps schema bag = .ok bag2 → k ∉ schema.map Prod.fst →
      lookupBag bag2 k = lookupBag bag k := by
  intro schema
  induction schema with
  | nil =>
      intro bag bag2 k h _
      rw [validateProps_nil] at h
      injection h with h
      subst h
      rfl
  | cons p rest ih =>
      intro bag bag2 k h hk
      obtain ⟨k1, d⟩ := p
      simp only [List.map_cons, List.mem_cons] at hk
      push_neg at hk
      rw [validateProps_cons] at h
      cases hF : validateField k1 d (lookupBag bag k1) with
      | error e => rw [hF] at h; exact absurd h (by simp)
      | ok r =>
          rw [hF] at h
          cases r with
          | none => exact ih h hk.2
          | some w =>
              rw [ih h hk.2]
              exact lookupBag_setKey_ne bag w hk.1

theorem validateProps_kindOk :
    ∀ {schema : List (String × Descriptor)} {bag bag2 : List (String × JsValue)},
      (schema.map Prod.fst).Nodup → validateProps schema bag = .ok bag2 →
      ∀ p ∈ schema, kindOk p.2 (lookupBag bag2 p.1) = true := by
  intro schema
  induction schema with
  | nil => intro bag bag2 _ _ p hp; exact absurd hp (by simp)
  | cons q rest ih =>
      intro bag bag2 hnd h p hp
      obtain ⟨k1, d⟩ := q
      simp only [List.map_cons, List.nodup_cons] at hnd
      rw [validateProps_cons] at h
      cases hF : validateField k1 d (lookupBag bag k1) with
      | error e => rw [hF] at h; exact absurd h (by simp)
      | ok r =>
          rw [hF] at h
          rcases List.mem_cons.1 hp with hp | hp
          · subst hp
            cases r with
            | none =>
                rw [validateProps_lookup_not_mem h hnd.1]
                exact validateField_kindOk hF
            | some w =>
                have hl : lookupBag bag2 k1 = w := by
                  rw [validateProps_lookup_not_mem h hnd.1]
                  exact lookupBag_setKey_self bag k1 w
                rw [hl]
                exact validateField_kindOk hF
          · cases r with
            | none => exact ih hnd.2 h p hp
            | some w => exact ih hnd.2 h p hp

theorem validateProps_idem :
    ∀ {schema : List (String × Descriptor)} {bag bag2 : List (String × JsValue)},
      (schema.map Prod.fst).Nodup → validateProps schema bag = .ok bag2 →
      validateProps schema bag2 = .ok bag2 := by
  intro schema
  induction schema with
  | nil =>
      intro bag bag2 _ h
      rw [validateProps_nil] at h
      injection h with h
      subst h
      rfl
  | cons q rest ih =>
      intro bag bag2 hnd h
      obtain ⟨k1, d⟩ := q
      simp only [List.map_cons, List.nodup_cons] at hnd
      rw [validateProps_cons] at h
      rw [validateProps_cons]
      cases hF : validateField k1 d (lookupBag bag k1) with
      | error e => rw [hF] at h; exact absurd h (by simp)
      | ok r =>
          rw [hF] at h
          cases r with
          | none =>
              simp only [] at h
              have hl : lookupBag bag2 k1 = lookupBag bag k1 :=
                validateProps_lookup_not_mem h hnd.1
              rw [hl, hF]
              exact ih hnd.2 h
          | some w =>
              simp only [] at h
              have hl : lookupBag bag2 k1 = w := by
                rw [validateProps_lookup_not_mem h hnd.1]
                exact lookupBag_setKey_self bag k1 w
              rw [hl, validateField_write_idem hF]
              simp only []
              rw [setKey_of_lookup hl (validateField_write_not_undef hF)]
              exact ih hnd.2 h

theorem validateFieldG_of_not_g {key : String} {d : Descriptor} {v : JsValue}
    (h : isGPattern d = false) : validateFieldG key d v = (validateField key d v, d) := by
  cases d with
  | gpattern m li src => simp [isGPattern] at h
  | kind k => rfl
  | cls c name => rfl
  | pred f => rfl
  | pattern test src => rfl
  | union ms => rfl

theorem runProps_of_validateProps {schema : List (String × Descriptor)}
    {bag bag2 : List (String × JsValue)} (h : validateProps schema bag = .ok bag2) :
    runProps schema bag = (.ok (), bag2) := by
  unfold validateProps at h
  rcases hr : runProps schema bag with ⟨r, b⟩
  rw [hr] at h
  cases r with
  | ok u =>
      simp only [] at h
      injection h with h
      subst h
      cases u
      rfl
  | error e =>
      simp only [] at h
      exact absurd h (by simp)

theorem runPropsG_of_no_g :
    ∀ {schema : List (String × Descriptor)} {bag : List (String × JsValue)},
      (∀ p ∈ schema, isGPattern p.2 = false) →
      runPropsG schema bag = ((runProps schema bag).1, (runProps schema bag).2, schema) := by
  intro schema
  induction schema with
  | nil => intro bag _; rfl
  | cons p rest ih =>
      intro bag hg
      obtain ⟨k, d⟩ := p
      have hd : isGPattern d = false := hg (k, d) (List.mem_cons_self _ _)
      have hrest : ∀ q ∈ rest, isGPattern q.2 = false :=
        fun q hq => hg q (List.mem_cons_of_mem _ hq)
      unfold runPropsG runProps
      rw [validateFieldG_of_not_g hd]
      cases hF : validateField k d (lookupBag bag k) with
      | error e => rfl
      | ok r =>
          cases r with
          | none =>
              simp only []
              rw [ih hrest]
          | some w =>
              simp only []
              rw [ih hrest]

/-! Facts about positional argument lists. -/

theorem getD_set_self {l : List JsValue} {i : Nat} (w d : JsValue) (h : i < l.length) :
    (l.set i w).getD i d = w := by
  simp [List.getD]
  rw [List.getElem?_set_self]
  · rfl
  · exact h

theorem getD_set_ne {l : List JsValue} {i j : Nat} (w d : JsValue) (h : i ≠ j) :
    (l.set i w).getD j d = l.getD j d := by
  simp [List.getD]
  rw [List.getElem?_set_ne h]

theorem set_of_getD {l : List JsValue} {i : Nat} {a : JsValue}
    (h : l.getD i .undef = a) (hi : i < l.length) : l.set i a = l := by
  subst h
  induction l generalizing i with
  | nil => simp at hi
  | cons x xs ih =>
      cases i with
      | zero => simp [List.getD]
      | succ n =>
          simp only [List.set, List.getD_cons_succ]
          rw [ih (by simpa using hi)]

theorem validateOneArg_posKindOk {i : Nat} {ty : Descriptor} {v : JsValue}
    {r : Option JsValue} (h : validateOneArg i ty v = .ok r) :
    posKindOk ty (afterField v r) = true := by
  cases ty with
  | pred f => simp [posKindOk]
  | pattern test src => simp [posKindOk]
  | gpattern m li src => simp [posKindOk]
  | union ms => simp [posKindOk]
  | cls c name =>
      simp only [validateOneArg] at h
      by_cases hi : isInstance c v = true
      · rw [if_pos hi] at h
        injection h with h
        subst h
        simpa [posKindOk, afterField] using hi
      · rw [if_neg hi] at h
        exact absurd h (by simp)
  | kind k =>
      simp only [validateOneArg] at h
      by_cases h7 : k = "int" ∨ k = "roundint" ∨ k = "strictint"
      · rw [if_pos h7] at h
        cases hI : validateInteger ("Argument " ++ toString i) k v with
        | error e => rw [hI] at h; exact absurd h (by simp [Except.map])
        | ok n =>
            rw [hI] at h
            simp only [Except.map] at h
            injection h with h
            subst h
            simp only [posKindOk]
            rw [if_pos (by simp only [intKind, decide_eq_true_eq]; tauto)]
            rfl
      · rw [if_neg h7] at h
        by_cases hTy : typeofStr v = k
        · rw [if_pos hTy] at h
          injection h with h
          subst h
          simp only [posKindOk]
          rw [if_neg (by simp only [intKind, decide_eq_true_eq]; tauto)]
          simpa [afterField] using hTy
        · rw [if_neg hTy] at h
          exact absurd h (by simp)

theorem validateOneArg_write_idem {i : Nat} {ty : Descriptor} {v w : JsValue}
    (h : validateOneArg i ty v = .ok (some w)) :
    validateOneArg i ty w = .ok (some w) := by
  cases ty with
  | pattern test src => exact absurd h (by simp [validateOneArg])
  | gpattern m li src => exact absurd h (by simp [validateOneArg])
  | union ms => exact absurd h (by simp [validateOneArg])
  | cls c name =>
      simp only [validateOneArg] at h
      by_cases hi : isInstance c v = true
      · rw [if_pos hi] at h
        exact absurd h (by simp)
      · rw [if_neg hi] at h
        exact absurd h (by simp)
  | pred f =>
      simp only [validateOneArg] at h
      cases hf : f v with
      | error m => rw [hf] at h; exact absurd h (by simp)
      | ok r =>
          rw [hf] at h
          simp only [] at h
          by_cases hp : isPromise r = true
          · rw [if_pos hp] at h
            exact absurd h (by simp)
          rw [if_neg hp] at h
          by_cases ht : truthy r = true
          · rw [if_pos ht] at h
            exact absurd h (by simp)
          · rw [if_neg ht] at h
            exact absurd h (by simp)
  | kind k =>
      simp only [validateOneArg] at h
      by_cases h7 : k = "int" ∨ k = "roundint" ∨ k = "strictint"
      · rw [if_pos h7] at h
        cases hI : validateInteger ("Argument " ++ toString i) k v with
        | error e => rw [hI] at h; exact absurd h (by simp [Except.map])
        | ok n =>
            rw [hI] at h
            simp only [Except.map] at h
            injection h with h
            injection h with h
            subst h
            have hOut := validateInteger_out hI
            simp only [validateOneArg]
            rw [if_pos h7, hOut]
            rfl
      · rw [if_neg h7] at h
        by_cases hTy : typeofStr v = k
        · rw [if_pos hTy] at h
          exact absurd h (by simp)
        · rw [if_neg hTy] at h
          exact absurd h (by simp)

theorem validateArgsFrom_length :
    ∀ {types : List Descriptor} {i : Nat} {vals out : List JsValue},
      validateArgsFrom types i vals = .ok out → out.length = vals.length := by
  intro types
  induction types with
  | nil =>
      intro i vals out h
      unfold validateArgsFrom at h
      injection h with h
      subst h
      rfl
  | cons ty rest ih =>
      intro i vals out h
      unfold validateArgsFrom at h
      cases hA : validateOneArg i ty (vals.getD i .undef) with
      | error e => rw [hA] at h; exact absurd h (by simp)
      | ok r =>
          rw [hA] at h
          cases r with
          | none => exact ih h
          | some w =>
              simp only [] at h
              rw [ih h]
              exact List.length_set ..

theorem validateArgsFrom_frame :
    ∀ {types : List Descriptor} {i : Nat} {vals out : List JsValue},
      validateArgsFrom types i vals = .ok out →
      ∀ j < i, out.getD j .undef = vals.getD j .undef := by
  intro types
  induction types with
  | nil =>
      intro i vals out h j _
      unfold validateArgsFrom at h
      injection h with h
      subst h
      rfl
  | cons ty rest ih =>
      intro i vals out h j hj
      unfold validateArgsFrom at h
      cases hA : validateOneArg i ty (vals.getD i .undef) with
      | error e => rw [hA] at h; exact absurd h (by simp)
      | ok r =>
          rw [hA] at h
          cases r with
          | none => exact ih h j (Nat.lt_succ_of_lt hj)
          | some w =>
              simp only [] at h
              rw [ih h j (Nat.lt_succ_of_lt hj)]
              exact getD_set_ne w .undef (Nat.ne_of_gt hj)

theorem validateArgsFrom_idem :
    ∀ {types : List Descriptor} {i : Nat} {vals out : List JsValue},
      i + types.length ≤ vals.length →
      validateArgsFrom types i vals = .ok out →
      validateArgsFrom types i out = .ok out := by
  intro types
  induction types with
  | nil =>
      intro i vals out _ h
      unfold validateArgsFrom at h
      injection h with h
      subst h
      rfl
  | cons ty rest ih =>
      intro i vals out hlen h
      have hi : i < vals.length := by
        simp only [List.length_cons] at hlen
        omega
      unfold validateArgsFrom at h
      unfold validateArgsFrom
      cases hA : validateOneArg i ty (vals.getD i .undef) with
      | error e => rw [hA] at h; exact absurd h (by simp)
      | ok r =>
          rw [hA] at h
          cases r with
          | none =>
              have hout : out.getD i .undef = vals.getD i .undef :=
                validateArgsFrom_frame h i (Nat.lt_succ_self i)
              rw [hout, hA]
              exact ih (by simp only [List.length_cons] at hlen ⊢; omega) h
          | some w =>
              simp only [] at h
              have hout : out.getD i .undef = w := by
                rw [validateArgsFrom_frame h i (Nat.lt_succ_self i)]
                exact getD_set_self w .undef hi
              rw [hout, validateOneArg_write_idem hA]
              have hol : out.length = vals.length := by
                rw [validateArgsFrom_length h]
                exact List.length_set ..
              simp only []
              rw [set_of_getD hout (by omega)]
              exact ih (by simp only [List.length_set, List.length_cons] at hlen ⊢; omega) h

theorem validateArgsFrom_append :
    ∀ {types : List Descriptor} {i : Nat} {a : List JsValue} (b : List JsValue),
      i + types.length ≤ a.length →
      validateArgsFrom types i (a ++ b) = Except.map (· ++ b) (validateArgsFrom types i a) := by
  intro types
  induction types with
  | nil =>
      intro i a b _
      unfold validateArgsFrom
      rfl
  | cons ty rest ih =>
      intro i a b hlen
      have hi : i < a.length := by
        simp only [List.length_cons] at hlen
        omega
      unfold validateArgsFrom
      rw [List.getD_append _ _ _ _ hi]
      cases hA : validateOneArg i ty (a.getD i .undef) with
      | error e => rfl
      | ok r =>
          cases r with
          | none => exact ih b (by simp only [List.length_cons] at hlen ⊢; omega)
          | some w =>
              simp only []
              rw [List.set_append_left i w hi]
              exact ih b (by simp only [List.length_set, List.length_cons] at hlen ⊢; omega)

theorem validateArgsFrom_posKindOk :
    ∀ {types : List Descriptor} {i : Nat} {vals out : List JsValue},
      i + types.length ≤ vals.length →
      validateArgsFrom types i vals = .ok out →
      ∀ j, j < types.length →
        posKindOk (types.getD j (.kind "any")) (out.getD (i + j) .undef) = true := by
  intro types
  induction types with
  | nil => intro i vals out _ _ j hj; exact absurd hj (by simp)
  | cons ty rest ih =>
      intro i vals out hlen h j hj
      have hi : i < vals.length := by
        simp only [List.length_cons] at hlen
        omega
      unfold validateArgsFrom at h
      cases hA : validateOneArg i ty (vals.getD i .undef) with
      | error e => rw [hA] at h; exact absurd h (by simp)
      | ok r =>
          rw [hA] at h
          cases j with
          | zero =>
              cases r with
              | none =>
                  have hout : out.getD i .undef = vals.getD i .undef :=
                    validateArgsFrom_frame h i (Nat.lt_succ_self i)
                  rw [List.getD_cons_zero, Nat.add_zero, hout]
                  simpa [afterField] using validateOneArg_posKindOk hA
              | some w =>
                  simp only [] at h
                  have hout : out.getD i .undef = w := by
                    rw [validateArgsFrom_frame h i (Nat.lt_succ_self i)]
                    exact getD_set_self w .undef hi
                  rw [List.getD_cons_zero, Nat.add_zero, hout]
                  simpa [afterField] using validateOneArg_posKindOk hA
          | succ j2 =>
              have hj2 : j2 < rest.length := by simpa using hj
              have hidx : i + (j2 + 1) = (i + 1) + j2 := by omega
              cases r with
              | none =>
                  have hr := ih (by simp only [List.length_cons] at hlen ⊢; omega) h j2 hj2
                  rw [List.getD_cons_succ, hidx]
                  exact hr
              | some w =>
                  simp only [] at h
                  have hr := ih (by simp only [List.length_set, List.length_cons] at hlen ⊢; omega) h j2 hj2
                  rw [List.getD_cons_succ, hidx]
                  exact hr

theorem validateArrayTypes_posKindOk {types : List Descriptor} {values out : List JsValue}
    (h : validateArrayTypes types values = .ok out) :
    ∀ j, j < types.length → posKindOk (types.getD j (.kind "any")) (out.getD j .undef) = true := by
  intro j hj
  unfold validateArrayTypes at h
  by_cases hemp : types.isEmpty
  · have : types = [] := List.isEmpty_iff.1 hemp
    subst this
    exact absurd hj (by simp)
  rw [if_neg hemp] at h
  by_cases hlt : values.length < types.length
  · rw [if_pos hlt] at h
    exact absurd h (by simp)
  rw [if_neg hlt] at h
  have hk := validateArgsFrom_posKindOk (by omega) h j hj
  simpa using hk

theorem validateArrayTypes_idem {types : List Descriptor} {values out : List JsValue}
    (h : validateArrayTypes types values = .ok out) :
    validateArrayTypes types out = .ok out := by
  unfold validateArrayTypes at h ⊢
  by_cases hemp : types.isEmpty
  · rw [if_pos hemp] at h ⊢
    by_cases hvemp : values.isEmpty
    · rw [if_pos hvemp] at h
      injection h with h
      subst h
      rw [if_pos hvemp]
    · rw [if_neg hvemp] at h
      exact absurd h (by simp)
  rw [if_neg hemp] at h ⊢
  by_cases hlt : values.length < types.length
  · rw [if_pos hlt] at h
    exact absurd h (by simp)
  rw [if_neg hlt] at h
  have hol : out.length = values.length := validateArgsFrom_length h
  rw [if_neg (by omega)]
  exact validateArgsFrom_idem (by omega) h

theorem runProps_frame :
    ∀ {schema : List (String × Descriptor)} {bag : List (String × JsValue)} {k : String},
      k ∉ schema.map Prod.fst →
      lookupBag (runProps schema bag).2 k = lookupBag bag k := by
  intro schema
  induction schema with
  | nil => intro bag k _; rfl
  | cons p rest ih =>
      intro bag k hk
      obtain ⟨k1, d⟩ := p
      simp only [List.map_cons, List.mem_cons] at hk
      push_neg at hk
      unfold runProps
      cases hF : validateField k1 d (lookupBag bag k1) with
      | error e => rfl
      | ok r =>
          cases r with
          | none => exact ih hk.2
          | some w =>
              simp only []
              rw [ih hk.2]
              exact lookupBag_setKey_ne bag w hk.1

theorem markerKind_iff (d : Descriptor) :
    markerKind d = true ↔ d = .kind "optional" ∨ d = .kind "undefined" := by
  cases d <;> simp [markerKind]

theorem isBooleanLiteral_iff (v : JsValue) :
    isBooleanLiteral v = true ↔
      v = .num (.finite 0) ∨ v = .num (.finite 1) ∨ v = .str "true" ∨ v = .str "false" := by
  cases v with
  | num n => cases n <;> simp [isBooleanLiteral]
  | str s => simp [isBooleanLiteral]
  | _ => simp [isBooleanLiteral]

/-! Claim theorems. -/

/-- C1, counterexample: a positional schema whose only descriptor is a
regular expression validates the argument list `[42]` successfully and
leaves the number in the resulting bag, because `#validateArrayTypes`
never reaches the pattern check — so a field with a pattern descriptor
need not hold a string after successful validation, refuting the claim
that every field of the resulting bag has its descriptor's target kind. -/
theorem C1_counterexample :
    validateArrayTypes [.pattern (fun s => s = "a") "a"] [.num (.finite 42)] =
      .ok [.num (.finite 42)] ∧
    typeofStr (.num (.finite 42)) ≠ "string" :=
  ⟨rfl, by decide⟩

/-- C1, amended: after successful validation every object-schema field
satisfies its descriptor's target kind (numeric descriptors hold numbers,
pattern fields hold strings, and so on), and every positional argument
satisfies its descriptor's target kind for kind-name, integer-family and
class descriptors; pattern and union descriptors in positional schemas are
not validated at all, so they impose no kind there. -/
theorem C1_kind_soundness :
    (∀ (schema : List (String × Descriptor)) (bag bag2 : List (String × JsValue)),
       (schema.map Prod.fst).Nodup → validateProps schema bag = .ok bag2 →
       ∀ p ∈ schema, kindOk p.2 (lookupBag bag2 p.1) = true) ∧
    (∀ (types : List Descriptor) (values out : List JsValue),
       validateArrayTypes types values = .ok out →
       ∀ j, j < types.length →
         posKindOk (types.getD j (.kind "any")) (out.getD j .undef) = true) :=
  ⟨fun _ _ _ hnd hok => validateProps_kindOk hnd hok,
   fun _ _ _ hok => validateArrayTypes_posKindOk hok⟩

/-- C1, witness: instantiating the amended soundness theorem on the
schema with one `int` field coerced from the string `"42.9"`, and on the
positional schema `[roundint]`. -/
theorem C1_kind_soundness_witness :
    kindOk (.kind "int") (lookupBag [("a", JsValue.num (.finite 42))] "a") = true ∧
    posKindOk (.kind "roundint") ([JsValue.num (.finite 43)].getD 0 .undef) = true :=
  ⟨C1_kind_soundness.1 [("a", .kind "int")] [("a", .str "42.9")] [("a", .num (.finite 42))]
      (by simp) (by with_unfolding_all rfl) ("a", .kind "int") (List.mem_singleton.mpr rfl),
   by
     have h := C1_kind_soundness.2 [.kind "roundint"] [.str "42.9"] [.num (.finite 43)]
       (by with_unfolding_all rfl) 0 (by decide)
     simpa using h⟩

/-- C2: the integer family as the code implements it: `int` coerces the
string `"42.9"` to `42`, `roundint` coerces it to `43`, `strictint`
accepts the genuine integer `42` unchanged, `strictint` rejects `3.14`
and rejects the numeric string `"42"` outright for not being a number
type, unparsable input fails — but `int` sends `-2.5` to `-3`: the code
floors (`Math.floor`) instead of truncating toward zero, although the
project README documents `int` as truncating via `parseInt`. -/
theorem C2_integer_family_behavior :
    validateField "k" (.kind "int") (.str "42.9") = .ok (some (.num (.finite 42))) ∧
    validateField "k" (.kind "roundint") (.str "42.9") = .ok (some (.num (.finite 43))) ∧
    validateField "k" (.kind "strictint") (.num (.finite 42)) =
      .ok (some (.num (.finite 42))) ∧
    validateField "k" (.kind "strictint") (.num (.finite (314 / 100))) =
      .error (.notInteger "k") ∧
    validateField "k" (.kind "strictint") (.str "42") =
      .error (.typeMismatch "k" "number" "string") ∧
    validateField "k" (.kind "int") (.str "oops") = .error (.notNumeric "k") ∧
    validateField "k" (.kind "int") (.num (.finite (-5 / 2))) =
      .ok (some (.num (.finite (-3)))) := by
  refine ⟨?_, ?_, ?_, ?_, ?_, ?_, ?_⟩ <;> with_unfolding_all rfl

/-- C4, counterexample: with the one-field schema `a : /^test$/g` (the
g-flag regex form the README documents), validating the bag with
`a = "test"` succeeds — coercing the field to the string and advancing
the regex object's `lastIndex` to 4 — but re-validating the very bag just
coerced against the same schema object fails: the second `test()` starts
searching at index 4, the anchored pattern no longer matches, and the
pattern-mismatch error is thrown.  Re-validation is therefore not a
no-op. -/
theorem C4_counterexample :
    runPropsG [("a", .gpattern matchTestAnchored 0 "^test$")]
        [("a", JsValue.str "test")] =
      (.ok (), [("a", JsValue.str "test")],
       [("a", .gpattern matchTestAnchored 4 "^test$")]) ∧
    (runPropsG [("a", .gpattern matchTestAnchored 4 "^test$")]
        [("a", JsValue.str "test")]).1 =
      .error (.patternMismatch "a" "^test$") := by
  constructor
  · with_unfolding_all rfl
  · with_unfolding_all rfl

/-- C4, amended: re-validating an already-coerced bag against the same
schema is a no-op provided no field descriptor is a `g`/`y`-flag regular
expression, whose `lastIndex` statefulness breaks it (see the
counterexample).  For such schemas a call leaves the schema state
unchanged, and — with the distinct keys every JavaScript object literal
has — validating the coerced bag against the post-call schema object
succeeds again and changes nothing; positional re-validation is a no-op
for every descriptor list, g-flag patterns included, because the
positional path never runs a pattern test. -/
theorem C4_revalidation_idempotent :
    (∀ (schema : List (String × Descriptor)) (bag : List (String × JsValue)),
       (∀ p ∈ schema, isGPattern p.2 = false) →
       runPropsG schema bag = ((runProps schema bag).1, (runProps schema bag).2, schema)) ∧
    (∀ (schema schema2 : List (String × Descriptor)) (bag bag2 : List (String × JsValue)),
       (∀ p ∈ schema, isGPattern p.2 = false) →
       (schema.map Prod.fst).Nodup →
       runPropsG schema bag = (.ok (), bag2, schema2) →
       runPropsG schema2 bag2 = (.ok (), bag2, schema2)) ∧
    (∀ (types : List Descriptor) (values out : List JsValue),
       validateArrayTypes types values = .ok out →
       validateArrayTypes types out = .ok out) := by
  refine ⟨fun schema bag hg => runPropsG_of_no_g hg, ?_,
    fun _ _ _ h => validateArrayTypes_idem h⟩
  intro schema schema2 bag bag2 hg hnd hrun
  rw [runPropsG_of_no_g hg] at hrun
  injection hrun with ha hb
  injection hb with hb hc
  subst hc
  have hpq : runProps schema bag = (.ok (), bag2) := by
    rw [← ha, ← hb]
  have hvp : validateProps schema bag = .ok bag2 := by
    unfold validateProps
    rw [hpq]
  have hvp2 : validateProps schema bag2 = .ok bag2 := validateProps_idem hnd hvp
  have hrp2 : runProps schema bag2 = (.ok (), bag2) := runProps_of_validateProps hvp2
  rw [runPropsG_of_no_g hg, hrp2]

/-- C4, witness: the boolean-field schema (no g-flag pattern in it)
re-validates its own coerced output unchanged with the schema state
untouched, and a positional `int` re-validates its coerced output
unchanged. -/
theorem C4_revalidation_idempotent_witness :
    runPropsG [("flag", Descriptor.kind "boolean")] [("flag", JsValue.bool true)] =
      (.ok (), [("flag", JsValue.bool true)], [("flag", Descriptor.kind "boolean")]) ∧
    validateArrayTypes [Descriptor.kind "int"] [JsValue.num (.finite 42)] =
      .ok [JsValue.num (.finite 42)] :=
  ⟨C4_revalidation_idempotent.2.1 [("flag", .kind "boolean")] [("flag", .kind "boolean")]
      [("flag", .str "x")] [("flag", .bool true)]
      (by intro p hp; rw [List.mem_singleton.1 hp]; rfl) (by simp)
      (by with_unfolding_all rfl),
   C4_revalidation_idempotent.2.2 [.kind "int"] [.str "42.9"] [.num (.finite 42)]
     (by with_unfolding_all rfl)⟩

/-- C5: a positional schema (a nonempty descriptor list) rejects a call
with fewer arguments than descriptors with an arity error carrying the
expected and actual counts, and the callback is never invoked; a call
with more arguments than descriptors succeeds whenever the first `N`
validate, the extra trailing arguments being passed through untouched and
unvalidated. -/
theorem C5_positional_arity (types : List Descriptor) (params : List JsValue)
    (hpos : 0 < types.length) :
    (params.length < types.length →
       dispatchPositional types params = .error (.arity types.length params.length) ∧
       callbackInvocation (dispatchPositional types params) = none) ∧
    (types.length < params.length →
       ∀ out, validateArrayTypes types (params.take types.length) = .ok out →
         dispatchPositional types params = .ok (out ++ params.drop types.length)) := by
  have hne : ¬ types.isEmpty = true := by
    cases types
    · simp at hpos
    · simp
  constructor
  · intro hlt
    have hd : dispatchPositional types params =
        .error (.arity types.length params.length) := by
      unfold dispatchPositional validateArrayTypes
      rw [if_neg hne, if_pos hlt]
    exact ⟨hd, by rw [hd]; rfl⟩
  · intro hgt out hok
    have hlen_take : (params.take types.length).length = types.length := by
      rw [List.length_take]
      omega
    have hok2 : validateArgsFrom types 0 (params.take types.length) = .ok out := by
      unfold validateArrayTypes at hok
      rw [if_neg hne, if_neg (by rw [hlen_take]; omega)] at hok
      exact hok
    have hap := @validateArgsFrom_append types 0 (params.take types.length)
      (params.drop types.length) (by rw [hlen_take]; omega)
    unfold dispatchPositional validateArrayTypes
    rw [if_neg hne, if_neg (by omega)]
    have hsplit : validateArgsFrom types 0 params =
        validateArgsFrom types 0 (params.take types.length ++ params.drop types.length) := by
      rw [List.take_append_drop]
    rw [hsplit, hap, hok2]
    rfl

/-- C5, witness: the one-descriptor schema `[number]` rejects a
zero-argument call with the arity error `expected 1, got 0`, and accepts
a two-argument call whose extra argument is passed through untouched. -/
theorem C5_positional_arity_witness :
    (dispatchPositional [Descriptor.kind "number"] [] = .error (.arity 1 0) ∧
     callbackInvocation (dispatchPositional [Descriptor.kind "number"] []) = none) ∧
    dispatchPositional [Descriptor.kind "number"]
        [JsValue.num (.finite 40), JsValue.str "x"] =
      .ok [JsValue.num (.finite 40), JsValue.str "x"] :=
  ⟨(C5_positional_arity [.kind "number"] [] (by decide)).1 (by decide),
   (C5_positional_arity [.kind "number"] [.num (.finite 40), .str "x"] (by decide)).2
     (by decide) [.num (.finite 40)] rfl⟩

theorem typeofStr_ne_optional (v : JsValue) : typeofStr v ≠ "optional" := by
  cases v <;> simp [typeofStr]

theorem memberIsTypeof_iff (m : Descriptor) (t : String) :
    memberIsTypeof m t = true ↔ m = .kind t := by
  cases m <;> simp [memberIsTypeof]

/-- C3, counterexample: the union branch compares each member against the
`typeof` string of the value, so the member `'int'` — which as a single
descriptor matches (and coerces) the number 42 — never matches inside a
union: the union `['int']` rejects 42 even though its one non-marker
member matches the value under the Type Matcher's rules. -/
theorem C3_counterexample :
    validateField "k" (.union [.kind "int"]) (.num (.finite 42)) =
      .error (.unionMismatch "k" "number") ∧
    validateField "k" (.kind "int") (.num (.finite 42)) =
      .ok (some (.num (.finite 42))) := by
  constructor
  · with_unfolding_all rfl
  · with_unfolding_all rfl

/-- C3, amended: for a union-typed field, an absent value passes exactly
when a member is the marker `'optional'` or `'undefined'`; a null value
passes unconditionally; any other value passes exactly when some member
is the kind-name string equal to the value's `typeof` tag (members that
are not such strings — classes, patterns, names like `'int'` or `'any'` —
never match); and no coercion is ever written back for a union-typed
field. -/
theorem C3_union_semantics (key : String) (members : List Descriptor) (v : JsValue) :
    (validateField key (.union members) .undef = .ok none ↔
       Descriptor.kind "optional" ∈ members ∨ Descriptor.kind "undefined" ∈ members) ∧
    validateField key (.union members) .null = .ok none ∧
    (v ≠ .undef → v ≠ .null →
       (validateField key (.union members) v = .ok none ↔
          Descriptor.kind (typeofStr v) ∈ members)) ∧
    (∀ w : JsValue, validateField key (.union members) v ≠ .ok (some w)) := by
  refine ⟨?_, ?_, ?_, ?_⟩
  · simp only [validateField]
    by_cases hm : members.any markerKind = true
    · rw [if_pos ⟨rfl, hm⟩]
      constructor
      · intro _
        rcases List.any_eq_true.1 hm with ⟨d, hd, hdm⟩
        rcases (markerKind_iff d).1 hdm with h | h
        · exact Or.inl (h ▸ hd)
        · exact Or.inr (h ▸ hd)
      · intro _
        rfl
    · rw [if_neg (fun hc => hm hc.2)]
      rw [if_neg (by simp [isNull])]
      have hfa : ((members.filter fun m => ¬ markerKind m = true).any
          fun m => memberIsTypeof m (typeofStr .undef)) ≠ true := by
        intro hc
        rcases List.any_eq_true.1 hc with ⟨m, hmem, hmt⟩
        have hmk : m = .kind "undefined" := by
          have := (memberIsTypeof_iff m (typeofStr .undef)).1 hmt
          simpa [typeofStr] using this
        have := (List.mem_filter.1 hmem).2
        rw [hmk] at this
        simp [markerKind] at this
      rw [if_neg hfa]
      constructor
      · intro hc
        exact absurd hc (by simp)
      · intro hc
        exfalso
        apply hm
        rcases hc with h | h
        · exact List.any_eq_true.2 ⟨_, h, by simp [markerKind]⟩
        · exact List.any_eq_true.2 ⟨_, h, by simp [markerKind]⟩
  · simp only [validateField]
    rw [if_neg (fun hc => by simpa [isUndef] using hc.1)]
    rw [if_pos (show isNull JsValue.null = true from rfl)]
  · intro hvu hvn
    simp only [validateField]
    have hu : isUndef v = false := by cases v <;> simp_all [isUndef]
    have hn : isNull v = false := by cases v <;> simp_all [isNull]
    rw [if_neg (fun hc => by rw [hu] at hc; simpa using hc.1)]
    rw [if_neg (by rw [hn]; simp)]
    have hmk : markerKind (Descriptor.kind (typeofStr v)) = false := by
      simp only [markerKind]
      rw [decide_eq_false_iff_not]
      rintro (h | h)
      · exact typeofStr_ne_optional v h
      · exact hvu ((typeofStr_undef_iff v).1 h)
    by_cases hmem : Descriptor.kind (typeofStr v) ∈ members
    · rw [if_pos (List.any_eq_true.2 ⟨Descriptor.kind (typeofStr v),
        List.mem_filter.2 ⟨hmem, by simp [hmk]⟩, by simp [memberIsTypeof]⟩)]
      exact ⟨fun _ => hmem, fun _ => rfl⟩
    · rw [if_neg (fun hc => by
        rcases List.any_eq_true.1 hc with ⟨m, hmemf, hmt⟩
        have := (memberIsTypeof_iff m (typeofStr v)).1 hmt
        subst this
        exact hmem (List.mem_filter.1 hmemf).1)]
      constructor
      · intro hc
        exact absurd hc (by simp)
      · intro hc
        exact absurd hc hmem
  · intro w
    simp only [validateField]
    split_ifs <;> simp

/-- C3, witness: instantiating the amended union semantics — an absent
value accepted through the `'optional'` marker, and a present string
accepted by a `'string'` member matching its `typeof` tag. -/
theorem C3_union_semantics_witness :
    validateField "k" (.union [.kind "string", .kind "optional"]) .undef = .ok none ∧
    validateField "k" (.union [.kind "string"]) (.str "a") = .ok none :=
  ⟨((C3_union_semantics "k" [.kind "string", .kind "optional"] .undef).1).mpr
      (Or.inl (by simp)),
   ((C3_union_semantics "k" [.kind "string"] (.str "a")).2.2.1 (by simp) (by simp)).mpr
      (by simp [typeofStr])⟩

/-- C6, counterexample: for an object schema the working bag is the
caller's own object, and coercions are applied field by field until the
first failure — so the failing call below leaves the already-coerced
field `a` (now the number 42) in the caller's object even though
validation fails on `b` and the callback never runs.  This refutes the
claim that a call never mutates the caller-supplied argument structure
and that a failed call leaves no partially coerced fields. -/
theorem C6_counterexample :
    objectCall [("a", .kind "int"), ("b", .kind "int")]
        [("a", .str "42.9"), ("b", .str "oops")] =
      (.error (.notNumeric "b"), [("a", .num (.finite 42)), ("b", .str "oops")]) ∧
    [("a", JsValue.num (.finite 42)), ("b", JsValue.str "oops")] ≠
      [("a", JsValue.str "42.9"), ("b", JsValue.str "oops")] := by
  constructor
  · with_unfolding_all rfl
  · intro h
    injection h with h1 _
    injection h1 with _ h2
    exact JsValue.noConfusion h2

/-- C6, amended: the engine writes only into the per-call bag and only at
keys named by the schema — any key outside the schema keeps its value
whatever the outcome — and when validation fails the dispatcher
propagates the error and the callback is never invoked; but for object
schemas the bag is the caller's own object, so coercions applied to
fields before the failing one remain visible to the caller. -/
theorem C6_frame_and_no_callback :
    (∀ (schema : List (String × Descriptor)) (bag : List (String × JsValue)) (k : String),
       k ∉ schema.map Prod.fst →
       lookupBag (runProps schema bag).2 k = lookupBag bag k) ∧
    (∀ (schema : List (String × Descriptor)) (bag : List (String × JsValue)) (e : VErr),
       (runProps schema bag).1 = .error e →
       objectCall schema bag = (.error e, (runProps schema bag).2) ∧
       callbackInvocation (objectCall schema bag).1 = none) := by
  constructor
  · intro schema bag k hk
    exact runProps_frame hk
  · intro schema bag e he
    unfold objectCall
    rcases hr : runProps schema bag with ⟨r, b2⟩
    rw [hr] at he
    simp only [] at he
    subst he
    exact ⟨rfl, rfl⟩

/-- C6, witness: a key outside the schema keeps its value, and the
failing call of the counterexample never reaches the callback. -/
theorem C6_frame_and_no_callback_witness :
    lookupBag (runProps [("a", Descriptor.kind "int")]
        [("a", JsValue.str "1"), ("x", JsValue.bool true)]).2 "x" = JsValue.bool true ∧
    callbackInvocation (objectCall [("a", Descriptor.kind "int"), ("b", Descriptor.kind "int")]
        [("a", JsValue.str "42.9"), ("b", JsValue.str "oops")]).1 = none :=
  ⟨by
     have h := C6_frame_and_no_callback.1 [("a", .kind "int")]
       [("a", .str "1"), ("x", .bool true)] "x" (by simp)
     rw [h]
     rfl,
   (C6_frame_and_no_callback.2 [("a", .kind "int"), ("b", .kind "int")]
      [("a", .str "42.9"), ("b", .str "oops")] (.notNumeric "b")
      (by with_unfolding_all rfl)).2⟩

/-- C7, counterexample: a predicate returning a pending Promise is caught
and rejected in the positional branch, but in the object-schema branch
there is no Promise check: the Promise is truthy, so the field passes —
refuting the claim that the synchronity failure is detected in positional
and object schemas alike. -/
theorem C7_counterexample :
    validateField "a" (.pred (fun _ => .ok (.promise 0))) (.num (.finite 5)) = .ok none ∧
    validateOneArg 0 (.pred (fun _ => .ok (.promise 0))) (.num (.finite 5)) =
      .error (.validatorError 0 "Validator functions must be synchronous") :=
  ⟨rfl, rfl⟩

/-- C7, amended: when a predicate returns a pending Promise, positional
validation fails with the validators-must-be-synchronous error, detected
before the result is read as a boolean; but object-schema validation
treats the Promise as an ordinary truthy value and the field passes. -/
theorem C7_async_predicate (f : JsValue → Except String JsValue) (v : JsValue)
    (i : Nat) (key : String) (pid : Nat) (hf : f v = .ok (.promise pid)) :
    validateOneArg i (.pred f) v =
      .error (.validatorError i "Validator functions must be synchronous") ∧
    (isUndef v = false → validateField key (.pred f) v = .ok none) := by
  constructor
  · simp only [validateOneArg]
    rw [hf]
    rfl
  · intro hu
    simp only [validateField]
    rw [if_neg (by rw [hu]; simp), hf]
    rfl

/-- C7, witness: instantiating the amended theorem on a concrete
Promise-returning predicate and the string argument `"x"`. -/
theorem C7_async_predicate_witness :
    validateOneArg 2 (.pred (fun _ => Except.ok (.promise 3))) (.str "x") =
      .error (.validatorError 2 "Validator functions must be synchronous") ∧
    validateField "f" (.pred (fun _ => Except.ok (.promise 3))) (.str "x") = .ok none :=
  ⟨(C7_async_predicate (fun _ => Except.ok (.promise 3)) (.str "x") 2 "f" 3 rfl).1,
   (C7_async_predicate (fun _ => Except.ok (.promise 3)) (.str "x") 2 "f" 3 rfl).2 rfl⟩

/-- C8: the claim says the `'null'` descriptor accepts exactly the null
value (as the README documents); but the code reaches the generic
`typeof value !== validator` comparison, and `typeof null` is
`'object'`, never `'null'` — so the descriptor rejects null itself (with
`Expected null, got object`) and rejects every other value too: it never
accepts anything.  This is the code contradicting its own documentation. -/
theorem C8_null_descriptor_never_accepts :
    validateField "a" (.kind "null") .null = .error (.typeMismatch "a" "null" "object") ∧
    ∀ (key : String) (v : JsValue) (r : Option JsValue),
      validateField key (.kind "null") v ≠ .ok r := by
  constructor
  · rfl
  · intro key v r h
    simp only [validateField] at h
    unfold validateKindField at h
    rw [if_neg (by decide)] at h
    by_cases hu : isUndef v = true
    · rw [if_pos hu] at h
      exact absurd h (by simp)
    rw [if_neg hu] at h
    rw [if_neg (by decide), if_neg (by decide), if_neg (by decide), if_neg (by decide),
      if_neg (by decide), if_neg (by decide)] at h
    by_cases ht : typeofStr v = "null"
    · rcases typeofStr_mem v with t | t | t | t | t | t | t <;> rw [t] at ht <;>
        exact absurd ht (by decide)
    · rw [if_neg ht] at h
      exact absurd h (by simp)

/-- C9, counterexample: with the one-field schema `(value : int)` the
call passes the bare string `"42.9"`, the field is coerced to 42, but the
callback is invoked with the one-field bag object — not with the bare
coerced value 42 as the claim states. -/
theorem C9_counterexample :
    dispatchSingle "int" [.str "42.9"] =
      .ok [.obj [("value", .num (.finite 42))]] ∧
    JsValue.obj [("value", .num (.finite 42))] ≠ .num (.finite 42) := by
  constructor
  · with_unfolding_all rfl
  · intro h
    exact JsValue.noConfusion h

/-- Unfolding equation for the single-parameter dispatcher on a
one-argument call. -/
theorem dispatchSingle_eq (k : String) (v : JsValue) :
    dispatchSingle k [v] =
      match validateField "value" (.kind k) v with
      | .error e => .error e
      | .ok none => .ok [.obj [("value", v)]]
      | .ok (some w) => .ok [.obj [("value", w)]] := by
  unfold dispatchSingle
  rw [validateProps_cons]
  have hl : lookupBag [("value", ([v].getD 0 .undef))] "value" = v := rfl
  rw [hl]
  cases validateField "value" (.kind k) v with
  | error e => rfl
  | ok r =>
      cases r with
      | none => rfl
      | some w => rfl

/-- C9, amended: a single-value schema is treated as an object schema
with the one synthetic field `value`: the bare first argument is
validated and coerced as that field, and on success the user callback is
invoked with the one-field bag object carrying the coerced value under
the key `value` — not with the bare coerced value; on failure the error
propagates and the callback never runs. -/
theorem C9_single_value_dispatch (k : String) (v : JsValue) :
    (∀ w, validateField "value" (.kind k) v = .ok (some w) →
       dispatchSingle k [v] = .ok [.obj [("value", w)]]) ∧
    (validateField "value" (.kind k) v = .ok none →
       dispatchSingle k [v] = .ok [.obj [("value", v)]]) ∧
    (∀ e, validateField "value" (.kind k) v = .error e →
       dispatchSingle k [v] = .error e ∧
       callbackInvocation (dispatchSingle k [v]) = none) := by
  refine ⟨?_, ?_, ?_⟩
  · intro w hw
    rw [dispatchSingle_eq, hw]
  · intro hw
    rw [dispatchSingle_eq, hw]
  · intro e he
    rw [dispatchSingle_eq, he]
    exact ⟨rfl, rfl⟩

/-- C9, witness: instantiating the amended dispatch theorem on the
schema `(value : int)` with the bare argument `"1.5"`. -/
theorem C9_single_value_dispatch_witness :
    dispatchSingle "int" [.str "1.5"] = .ok [.obj [("value", .num (.finite 1))]] :=
  (C9_single_value_dispatch "int" (.str "1.5")).1 (.num (.finite 1))
    (by with_unfolding_all rfl)

/-- C10: the return-side `'boolean'` check passes exactly for actual
booleans and the four literals `0`, `1`, `'true'`, `'false'`, and a
passing return value is handed back unmodified; whereas the
parameter-side `'boolean'` descriptor coerces any present value by
truthiness and always succeeds. -/
theorem C10_return_boolean :
    (∀ v : JsValue, checkType (.kind "boolean") v = .ok true ↔
       (typeofStr v = "boolean" ∨ v = .num (.finite 0) ∨ v = .num (.finite 1) ∨
        v = .str "true" ∨ v = .str "false")) ∧
    (∀ v : JsValue, validateReturn v (.kind "boolean") = .ok () →
       returnCheckedResult v (.kind "boolean") = .ok v) ∧
    (∀ (key : String) (v : JsValue), isUndef v = false →
       validateField key (.kind "boolean") v = .ok (some (.bool (truthy v)))) := by
  refine ⟨?_, ?_, ?_⟩
  · intro v
    show (checkType (.kind "boolean") v = .ok true) ↔ _
    simp only [checkType]
    rw [if_neg (by decide), if_neg (by decide)]
    by_cases hu : isUndef v = true
    · rw [if_pos hu]
      have hv : v = .undef := (isUndef_iff v).1 hu
      subst hv
      constructor
      · intro h
        exact absurd h (by simp)
      · rintro (h | h | h | h | h) <;> simp [typeofStr] at h
    · rw [if_neg hu]
      rw [if_neg (by decide), if_neg (by decide), if_neg (by decide), if_pos trivial]
      constructor
      · intro h
        injection h with h
        rcases of_decide_eq_true h with h | h
        · exact Or.inl h
        · rcases (isBooleanLiteral_iff v).1 h with h | h | h | h
          · exact Or.inr (Or.inl h)
          · exact Or.inr (Or.inr (Or.inl h))
          · exact Or.inr (Or.inr (Or.inr (Or.inl h)))
          · exact Or.inr (Or.inr (Or.inr (Or.inr h)))
      · intro h
        have hp : (typeofStr v = "boolean" ∨ isBooleanLiteral v = true) := by
          rcases h with h | h | h | h | h
          · exact Or.inl h
          · exact Or.inr ((isBooleanLiteral_iff v).2 (Or.inl h))
          · exact Or.inr ((isBooleanLiteral_iff v).2 (Or.inr (Or.inl h)))
          · exact Or.inr ((isBooleanLiteral_iff v).2 (Or.inr (Or.inr (Or.inl h))))
          · exact Or.inr ((isBooleanLiteral_iff v).2 (Or.inr (Or.inr (Or.inr h))))
        rw [decide_eq_true hp]
  · intro v h
    unfold returnCheckedResult
    rw [h]
  · intro key v hu
    simp only [validateField]
    unfold validateKindField
    rw [if_neg (by decide), if_neg (by rw [hu]; simp), if_neg (by decide),
      if_neg (by decide), if_neg (by decide),
      if_pos (show ("boolean" : String) = "boolean" from rfl)]

/-- C10, witness: the literal `1` passes the return-side boolean check,
a passing boolean return is handed back unmodified, and the parameter
side coerces the empty string to `false`. -/
theorem C10_return_boolean_witness :
    checkType (.kind "boolean") (.num (.finite 1)) = .ok true ∧
    returnCheckedResult (.bool false) (.kind "boolean") = .ok (.bool false) ∧
    validateField "flag" (.kind "boolean") (.str "") = .ok (some (.bool false)) :=
  ⟨(C10_return_boolean.1 (.num (.finite 1))).mpr (Or.inr (Or.inr (Or.inl rfl))),
   C10_return_boolean.2.1 (.bool false) rfl,
   C10_return_boolean.2.2 "flag" (.str "") rfl⟩

end VM
